import Mathlib

/-!
# Verification of the `vaadin-clock` web component time model

This file is a shallow embedding, in Lean 4, of the time-arithmetic and
interaction logic of the `<vaadin-clock>` component
(`packages/clock/src/vaadin-clock.js`).  JavaScript strings are modelled as
`List Char`, JavaScript numbers appearing in the time model as `Int`
(all values flowing through these code paths are integral), and the
pointer angle produced by `_getAngleFromPoint` as `ℚ` (an exact model of
the float; `Math.round`/`Math.floor` become exact floor operations).
`Date.now()` is modelled as an explicit `now : Int` input to every
operation that reads it.  Nullable values are `Option`s and JavaScript
truthiness of strings/numbers is modelled explicitly.  All functions are
total, which reflects that the corresponding JavaScript never throws on
these paths.
-/

namespace VaadinClock

/-- JavaScript strings, modelled as lists of characters. -/
abbrev JSStr := List Char

/-- Truthiness of a nullable JS string: `null` and `''` are falsy. -/
def strTruthy : Option JSStr → Bool
  | none => false
  | some s => !s.isEmpty

/-- Truthiness of a nullable JS number (the `_runStartTimestamp` field):
`null` and `0` are falsy. -/
def tsTruthy : Option Int → Bool
  | none => false
  | some t => t != 0

/-- JS model of `String.prototype.split` with a single-character separator, as in
`timeString.split(':')`.  The JS function always returns a non-empty
array; splitting the empty string yields `[""]`. -/
def splitOnChar (c : Char) : JSStr → List JSStr
  | [] => [[]]
  | x :: xs =>
    if x = c then [] :: splitOnChar c xs
    else
      match splitOnChar c xs with
      | [] => [[x]]
      | y :: ys => (x :: y) :: ys

/-- The ten decimal digit characters. -/
def decDigits : List Char := ['0', '1', '2', '3', '4', '5', '6', '7', '8', '9']

/-- The decimal digit character for a digit value, as produced by JS
`String(n)` for `0 ≤ d ≤ 9`. -/
def digitChar : Nat → Char
  | 0 => '0'
  | 1 => '1'
  | 2 => '2'
  | 3 => '3'
  | 4 => '4'
  | 5 => '5'
  | 6 => '6'
  | 7 => '7'
  | 8 => '8'
  | _ => '9'

/-- Numeric value of a decimal digit character. -/
def digitVal (c : Char) : Nat := c.toNat - 48

/-- Value of a list of decimal digit characters, most significant first,
starting from an accumulator (Horner evaluation). -/
def natOfDigitsFrom (a : Nat) (ds : JSStr) : Nat :=
  ds.foldl (fun acc c => acc * 10 + digitVal c) a

/-- Value of a list of decimal digit characters, most significant first. -/
def natOfDigits (ds : JSStr) : Nat := natOfDigitsFrom 0 ds

/-- Decimal digits of `n`, most significant first, prepended to `acc`;
structurally recursive on a fuel argument so that the kernel can
evaluate it (any fuel at least `n` gives the same result). -/
def natToCharsFuel : Nat → Nat → JSStr → JSStr
  | 0, _, acc => acc
  | fuel + 1, n, acc =>
    if n = 0 then acc
    else natToCharsFuel fuel (n / 10) (digitChar (n % 10) :: acc)

/-- Decimal digits of `n`, most significant first, prepended to `acc`. -/
def natToChars (n : Nat) (acc : JSStr) : JSStr := natToCharsFuel n n acc

/-- Decimal digits of a natural number, the positional notation of JS
`String(n)`. -/
def decChars (n : Nat) : JSStr :=
  if n = 0 then ['0'] else natToChars n []

/-- Drops trailing `'0'` characters from a digit string, keeping at
least one digit. -/
def stripZeros (ds : JSStr) : JSStr :=
  if (ds.reverse.dropWhile (fun c => c = '0')).isEmpty then ['0']
  else (ds.reverse.dropWhile (fun c => c = '0')).reverse

/-- Exponential form of JS `String(n)` for `n ≥ 10^21`, built from the
exact significand digits: trailing zeros stripped, a decimal point after
the leading digit when further digits remain, then `e+` and the decimal
exponent (so `10^21` becomes `1e+21`).  This coincides with JS whenever
the exact digits are the shortest representation of the double, as at
`10^21`; the further digit-shortening JS applies to longer significands
is floating-point behaviour not modelled here. -/
def jsExpChars (n : Nat) : JSStr :=
  (match stripZeros (decChars n) with
    | [] => ['0']
    | d :: rest => if rest.isEmpty then [d] else d :: '.' :: rest) ++
    'e' :: '+' :: decChars ((decChars n).length - 1)

/-- The threshold from which JS `String(n)` switches from positional
decimal to exponential notation. -/
def expThreshold : Nat := 10 ^ 21

/-- JS `String(n)` for a non-negative integer-valued number: positional
decimal digits below `10^21`, exponential notation from `10^21` on. -/
def jsStringOfNat (n : Nat) : JSStr :=
  if n < expThreshold then decChars n else jsExpChars n

/-- JS `String(n)` for an integer: a leading `'-'` for negative values,
with the notation chosen by `jsStringOfNat`. -/
def jsStringOfInt (i : Int) : JSStr :=
  if i < 0 then '-' :: jsStringOfNat i.natAbs else jsStringOfNat i.toNat

/-- JS `String.prototype.padStart(2, '0')`. -/
def padStart2 (s : JSStr) : JSStr :=
  if s.length < 2 then List.replicate (2 - s.length) '0' ++ s else s

/-- The whitespace characters skipped by JS `parseInt`. -/
def isJsSpace (c : Char) : Bool :=
  c = ' ' || c = '\t' || c = '\n' || c = '\r'

/-- Splits an optional leading sign off a string, as `parseInt` does. -/
def splitSign (s : JSStr) : Int × JSStr :=
  match s with
  | [] => (1, [])
  | c :: rest =>
    if c = '-' then (-1, rest)
    else if c = '+' then (1, rest)
    else (1, c :: rest)

/-- Model of JS `parseInt(s, 10)`: skip leading whitespace, read an
optional sign, then the longest prefix of decimal digits; the result is
`NaN` (here `none`) when that prefix is empty. -/
def jsParseInt (s : JSStr) : Option Int :=
  if ((splitSign (s.dropWhile isJsSpace)).2.takeWhile Char.isDigit).isEmpty then none
  else
    some ((splitSign (s.dropWhile isJsSpace)).1 *
      (natOfDigits ((splitSign (s.dropWhile isJsSpace)).2.takeWhile Char.isDigit) : Int))

/-- Model of the idiom `parseInt(s, 10) || 0` used throughout the
component: `NaN` (and `0` itself) collapse to `0`. -/
def parseIntOr0 (s : JSStr) : Int := (jsParseInt s).getD 0

/-- A parsed time triple, the result type of `Clock.parseTime`.  The
fields are unconstrained integers: the component stores whatever
`parseInt` produced. -/
structure JSTime where
  hours : Int
  minutes : Int
  seconds : Int
deriving DecidableEq, Repr

/-- Model of `Clock.parseTime(timeString)` (static): `null` for a falsy input or
for fewer than two colon-separated parts, otherwise the three fields via
`parseInt(_, 10) || 0`, with seconds defaulting to `0`. -/
def parseTime (timeString : Option JSStr) : Option JSTime :=
  if !strTruthy timeString then none
  else
    let parts := splitOnChar ':' (timeString.getD [])
    if parts.length < 2 then none
    else
      some
        { hours := parseIntOr0 (parts.getD 0 [])
          minutes := parseIntOr0 (parts.getD 1 [])
          seconds := if 3 ≤ parts.length then parseIntOr0 (parts.getD 2 []) else 0 }

/-- Model of `Clock.formatTime(hours, minutes, seconds = 0)` (static): each
component is `String(n).padStart(2, '0')`, joined with `':'`. -/
def formatTime (hours minutes : Int) (seconds : Int := 0) : JSStr :=
  padStart2 (jsStringOfInt hours) ++
    ':' :: (padStart2 (jsStringOfInt minutes) ++
      ':' :: padStart2 (jsStringOfInt seconds))

/-- The comparison key used by `_isWithinBounds`:
`time.hours * 60 + time.minutes + time.seconds / 60`, computed in exact
rational arithmetic (the JS floats are exact for the comparisons made
with them in the ranges that arise here). -/
def timeToMinutes (t : JSTime) : ℚ :=
  (t.hours : ℚ) * 60 + (t.minutes : ℚ) + (t.seconds : ℚ) / 60

/-- JS `Math.round` on the (rational-modelled) angle: `⌊x + 1/2⌋`,
rounding halves toward positive infinity exactly as JS does. -/
def jsRound (x : ℚ) : Int := ⌊x + 1 / 2⌋

/-- Which clock hand is being dragged (`_draggingHand`). -/
inductive Hand
  | hour
  | minute
  | second
deriving DecidableEq, Repr

/-- The keys that `_onKeyDown` inspects. -/
inductive JSKey
  | arrowUp
  | arrowDown
  | arrowLeft
  | arrowRight
  | other
deriving DecidableEq, Repr

/-- The state of one `Clock` instance: the public properties and the
internal fields that the time model reads and writes.  Rendering-only
fields (`_animationFrameId`, label, aria attributes) are omitted; they
never feed back into the time model. -/
structure ClockState where
  value : Option JSStr
  running : Bool
  min : Option JSStr
  max : Option JSStr
  disabled : Bool
  readonly : Bool
  adjustable : Bool
  step : Int
  hours : Int
  minutes : Int
  seconds : Int
  draggingHand : Option Hand
  focused : Bool
  baseTimeMs : Int
  runStartTimestamp : Option Int
  accumulatedMs : Int
deriving DecidableEq, Repr

/-- The property defaults declared in `static get properties()` together
with the constructor's running-clock initialisation. -/
def initState : ClockState where
  value := none
  running := false
  min := none
  max := none
  disabled := false
  readonly := false
  adjustable := true
  step := 60
  hours := 0
  minutes := 0
  seconds := 0
  draggingHand := none
  focused := false
  baseTimeMs := 0
  runStartTimestamp := none
  accumulatedMs := 0

/-- Model of `_isInteractive()`: `this.adjustable && !this.disabled && !this.readonly`. -/
def isInteractive (st : ClockState) : Bool :=
  st.adjustable && !st.disabled && !st.readonly

/-- Model of `_isWithinBounds(timeString)`: vacuously true when both bounds are
falsy or when the candidate does not parse; otherwise the candidate's
minute key must not be strictly below a parseable `min` nor strictly
above a parseable `max`. -/
def isWithinBounds (st : ClockState) (timeString : Option JSStr) : Bool :=
  if !strTruthy st.min && !strTruthy st.max then true
  else
    match parseTime timeString with
    | none => true
    | some time =>
      let timeMinutes := timeToMinutes time
      let minViolated :=
        if strTruthy st.min then
          match parseTime st.min with
          | some minTime => decide (timeMinutes < timeToMinutes minTime)
          | none => false
        else false
      let maxViolated :=
        if strTruthy st.max then
          match parseTime st.max with
          | some maxTime => decide (timeToMinutes maxTime < timeMinutes)
          | none => false
        else false
      !minViolated && !maxViolated

/-- Model of `_parseAndSetTime(timeString)`: ignore falsy input; with at least two
colon-separated parts, store the three `parseInt(_, 10) || 0` fields
(seconds defaulting to `0`), otherwise change nothing. -/
def parseAndSetTime (st : ClockState) (timeString : Option JSStr) : ClockState :=
  if !strTruthy timeString then st
  else
    let parts := splitOnChar ':' (timeString.getD [])
    if 2 ≤ parts.length then
      { st with
        hours := parseIntOr0 (parts.getD 0 [])
        minutes := parseIntOr0 (parts.getD 1 [])
        seconds := if 3 ≤ parts.length then parseIntOr0 (parts.getD 2 []) else 0 }
    else st

/-- The `_valueChanged(newValue)` observer body: for a truthy new value,
parse-and-set the display, and when the value parses also reset the
running-clock base (`_baseTimeMs` from the parsed triple,
`_accumulatedMs` to `0`, and `_runStartTimestamp` to `Date.now()` when
running). -/
def valueChangedObserver (st : ClockState) (newValue : Option JSStr) (now : Int) :
    ClockState :=
  if strTruthy newValue then
    let st1 := parseAndSetTime st newValue
    match parseTime newValue with
    | some parsed =>
      let st2 :=
        { st1 with
          baseTimeMs :=
            parsed.hours * 3600000 + parsed.minutes * 60000 + parsed.seconds * 1000
          accumulatedMs := 0 }
      if st2.running then { st2 with runStartTimestamp := some now } else st2
    | none => st1
  else st

/-- Assignment to the `value` property: the observer fires only when the
assigned value differs from the stored one (Lit change detection). -/
def setValueProp (st : ClockState) (v : Option JSStr) (now : Int) : ClockState :=
  if v = st.value then st
  else valueChangedObserver { st with value := v } v now

/-- The `_runningChanged(newValue, oldValue)` observer body: on start,
record `Date.now()` as the run start; on stop, fold the elapsed period
into `_accumulatedMs` when a (truthy) run start exists.  The animation
start/stop calls touch no time-model state. -/
def runningChangedObserver (st : ClockState) (newValue oldValue : Bool) (now : Int) :
    ClockState :=
  if newValue then { st with runStartTimestamp := some now }
  else if oldValue then
    if tsTruthy st.runStartTimestamp then
      { st with
        accumulatedMs := st.accumulatedMs + (now - st.runStartTimestamp.getD 0)
        runStartTimestamp := none }
    else st
  else st

/-- Assignment to the `running` property, with observer-on-change
semantics. -/
def setRunningProp (st : ClockState) (b : Bool) (now : Int) : ClockState :=
  if b = st.running then st
  else runningChangedObserver { st with running := b } b st.running now

/-- Model of `_setTimeValue(hours, minutes, seconds)`: store the triple, format it
into `value`, and reset the running-clock base to it.  (The re-entrant
`_valueChanged` observer triggered by the `value` assignment re-derives
exactly these assignments for the triples the committing operations
produce — `parseTime` inverts `formatTime` below the exponential-notation
threshold — so it is not modelled separately.) -/
def setTimeValue (st : ClockState) (hours minutes seconds : Int) (now : Int) :
    ClockState :=
  let st1 :=
    { st with
      hours := hours
      minutes := minutes
      seconds := seconds
      value := some (formatTime hours minutes seconds)
      baseTimeMs := hours * 3600000 + minutes * 60000 + seconds * 1000
      accumulatedMs := 0 }
  if st1.running then { st1 with runStartTimestamp := some now } else st1

/-- The candidate triple computed by `_adjustTimeByStep(stepSeconds)`
before the bounds check: one conditional day-wrap, then
`Math.floor`/`%` decomposition (JS `%` is truncating, `Math.floor` of an
integer quotient is floor division). -/
def adjustCandidate (hours minutes seconds stepSeconds : Int) : JSTime :=
  let total0 := hours * 3600 + minutes * 60 + seconds + stepSeconds
  let daySeconds : Int := 24 * 3600
  let total :=
    if total0 < 0 then total0 + daySeconds
    else if daySeconds ≤ total0 then total0 - daySeconds
    else total0
  { hours := Int.fdiv total 3600
    minutes := Int.fdiv (Int.tmod total 3600) 60
    seconds := Int.tmod total 60 }

/-- Model of `_adjustTimeByStep(stepSeconds)`: commit the candidate through
`_setTimeValue` only when it passes `_isWithinBounds`. -/
def adjustTimeByStep (st : ClockState) (stepSeconds : Int) (now : Int) : ClockState :=
  let c := adjustCandidate st.hours st.minutes st.seconds stepSeconds
  if isWithinBounds st (some (formatTime c.hours c.minutes c.seconds)) then
    setTimeValue st c.hours c.minutes c.seconds now
  else st

/-- Model of `_onKeyDown(e)`: only when interactive and focused; arrow up/right
step forward and arrow down/left step backward by `this.step || 60`
seconds. -/
def onKeyDown (st : ClockState) (key : JSKey) (now : Int) : ClockState :=
  if !isInteractive st || !st.focused then st
  else
    let step := if st.step != 0 then st.step else 60
    match key with
    | .arrowUp => adjustTimeByStep st step now
    | .arrowRight => adjustTimeByStep st step now
    | .arrowDown => adjustTimeByStep st (-step) now
    | .arrowLeft => adjustTimeByStep st (-step) now
    | .other => st

/-- The new hour computed by the `'hour'` branch of `_handleDrag`:
`Math.round(angle / 30) % 12` plus 12 when currently PM, then the two
special-case corrections for `24` and for `0`-while-PM. -/
def dragNewHours (currentHours : Int) (angle : ℚ) : Int :=
  let hourValue := Int.tmod (jsRound (angle / 30)) 12
  let isPM := decide (12 ≤ currentHours)
  let newHours0 := hourValue + (if isPM then 12 else 0)
  let newHours1 := if newHours0 = 24 then 12 else newHours0
  if newHours1 = 0 && isPM then 12 else newHours1

/-- The candidate triple computed by `_handleDrag` for the hand currently
being dragged (the `default` switch branch keeps the current triple). -/
def dragCandidate (st : ClockState) (angle : ℚ) : JSTime :=
  match st.draggingHand with
  | some .hour =>
    { hours := dragNewHours st.hours angle, minutes := st.minutes, seconds := st.seconds }
  | some .minute =>
    { hours := st.hours
      minutes := Int.tmod (jsRound (angle / 6)) 60
      seconds := st.seconds }
  | some .second =>
    { hours := st.hours
      minutes := st.minutes
      seconds := Int.tmod (jsRound (angle / 6)) 60 }
  | none => { hours := st.hours, minutes := st.minutes, seconds := st.seconds }

/-- Model of `_handleDrag(clientX, clientY)`, taking the angle already computed by
`_getAngleFromPoint` as input: update the displayed triple (without
committing to `value`) only when the candidate passes the bounds check. -/
def handleDrag (st : ClockState) (angle : ℚ) : ClockState :=
  let c := dragCandidate st angle
  if isWithinBounds st (some (formatTime c.hours c.minutes c.seconds)) then
    { st with hours := c.hours, minutes := c.minutes, seconds := c.seconds }
  else st

/-- The candidate computed by `_handleFaceClick`: keep the hours, set the
minutes from the click angle, zero the seconds. -/
def faceClickCandidate (st : ClockState) (angle : ℚ) : JSTime :=
  { hours := st.hours
    minutes := Int.tmod (jsRound (angle / 6)) 60
    seconds := 0 }

/-- Model of `_handleFaceClick(clientX, clientY)` with the angle as input. -/
def handleFaceClick (st : ClockState) (angle : ℚ) (now : Int) : ClockState :=
  let c := faceClickCandidate st angle
  if isWithinBounds st (some (formatTime c.hours c.minutes c.seconds)) then
    setTimeValue st c.hours c.minutes c.seconds now
  else st

/-- Model of `_onFaceMouseDown` / `_onFaceTouchStart`: guarded by
`_isInteractive()`. -/
def onFaceMouseDown (st : ClockState) (angle : ℚ) (now : Int) : ClockState :=
  if !isInteractive st then st else handleFaceClick st angle now

/-- The new hour computed by `_toggleAmPm`: add or subtract 12 with the
two wrap corrections. -/
def toggleNewHours (hours : Int) (toAM : Bool) : Int :=
  let newHours0 := if toAM then hours - 12 else hours + 12
  let newHours1 := if newHours0 < 0 then newHours0 + 24 else newHours0
  if 24 ≤ newHours1 then newHours1 - 24 else newHours1

/-- Model of `_toggleAmPm(toAM)`: guarded by `_isInteractive()`, a no-op when
already in the desired half of the day, otherwise commit the shifted
hours when within bounds. -/
def toggleAmPm (st : ClockState) (toAM : Bool) (now : Int) : ClockState :=
  if !isInteractive st then st
  else
    let isCurrentlyAM := decide (st.hours < 12)
    if toAM = isCurrentlyAM then st
    else
      let newHours := toggleNewHours st.hours toAM
      if isWithinBounds st (some (formatTime newHours st.minutes st.seconds)) then
        setTimeValue st newHours st.minutes st.seconds now
      else st

/-- Model of `_onMouseDown(e, hand)` / `_onTouchStart(e, hand)`: guarded by
`_isInteractive()`, then `_startDrag(hand)`. -/
def onHandMouseDown (st : ClockState) (hand : Hand) : ClockState :=
  if !isInteractive st then st else { st with draggingHand := some hand }

/-- Model of `_onMouseMove(e)` / `_onTouchMove(e)`: guarded only by
`_draggingHand`, not by the interactivity flags. -/
def onMouseMove (st : ClockState) (angle : ℚ) : ClockState :=
  match st.draggingHand with
  | none => st
  | some _ => handleDrag st angle

/-- Model of `_endDrag()`: clear the marker and commit the displayed triple. -/
def endDrag (st : ClockState) (now : Int) : ClockState :=
  match st.draggingHand with
  | none => st
  | some _ => setTimeValue { st with draggingHand := none } st.hours st.minutes st.seconds now

/-- Model of `_onMouseUp()` / `_onTouchEnd()`: `_endDrag` when a drag is in
progress. -/
def onMouseUp (st : ClockState) (now : Int) : ClockState :=
  match st.draggingHand with
  | none => st
  | some _ => endDrag st now

/-- The JS idiom `((totalMs % dayMs) + dayMs) % dayMs` with truncating `%`. -/
def normalizeDayMs (totalMs : Int) : Int :=
  Int.tmod (Int.tmod totalMs 86400000 + 86400000) 86400000

/-- The elapsed running milliseconds: `_accumulatedMs` plus the time
since a (truthy) `_runStartTimestamp`. -/
def elapsedRunMs (st : ClockState) (now : Int) : Int :=
  st.accumulatedMs +
    (if tsTruthy st.runStartTimestamp then now - st.runStartTimestamp.getD 0 else 0)

/-- Model of `_updateDisplayFromRunningTime()`: decompose the day-normalized
base-plus-elapsed milliseconds into the displayed triple. -/
def updateDisplayFromRunningTime (st : ClockState) (now : Int) : ClockState :=
  let normalizedMs := normalizeDayMs (st.baseTimeMs + elapsedRunMs st now)
  { st with
    hours := Int.fdiv normalizedMs 3600000
    minutes := Int.fdiv (Int.tmod normalizedMs 3600000) 60000
    seconds := Int.fdiv (Int.tmod normalizedMs 60000) 1000 }

/-- Model of `getValue()`: the stored `value` when not running, otherwise the
formatted day-normalized base-plus-elapsed time. -/
def getValue (st : ClockState) (now : Int) : Option JSStr :=
  if !st.running then st.value
  else
    let normalizedMs := normalizeDayMs (st.baseTimeMs + elapsedRunMs st now)
    some
      (formatTime (Int.fdiv normalizedMs 3600000)
        (Int.fdiv (Int.tmod normalizedMs 3600000) 60000)
        (Int.fdiv (Int.tmod normalizedMs 60000) 1000))

/-- An externally triggered property mutation of the running-clock state
machine, with `Date.now()` at that instant as explicit data. -/
inductive ClockEvent
  | setVal (v : Option JSStr) (now : Int)
  | setRun (b : Bool) (now : Int)

/-- Apply one event to the state. -/
def stepEvent (st : ClockState) : ClockEvent → ClockState
  | .setVal v now => setValueProp st v now
  | .setRun b now => setRunningProp st b now

/-- Apply a list of events in order. -/
def runTrace (st : ClockState) : List ClockEvent → ClockState
  | [] => st
  | e :: es => runTrace (stepEvent st e) es

/-- The events of a list of completed running periods: for each pair,
`running` is switched on at the first component and off at the second. -/
def toggleEvents : List (Int × Int) → List ClockEvent
  | [] => []
  | (a, b) :: rest => .setRun true a :: .setRun false b :: toggleEvents rest

/-- The summed duration of a list of completed running periods. -/
def periodsSumMs : List (Int × Int) → Int
  | [] => 0
  | (a, b) :: rest => (b - a) + periodsSumMs rest

/-- The integer comparison key equivalent to `timeToMinutes` (scaled by
60); used to state bound checks decidably. -/
def timeKey (t : JSTime) : Int := t.hours * 3600 + t.minutes * 60 + t.seconds

/-- Restatement of `_isWithinBounds` over the integer key: the comparisons on
the rational minute values coincide with comparisons of total seconds. -/
def isWithinBoundsKey (st : ClockState) (timeString : Option JSStr) : Bool :=
  if !strTruthy st.min && !strTruthy st.max then true
  else
    match parseTime timeString with
    | none => true
    | some time =>
      let minViolated :=
        if strTruthy st.min then
          match parseTime st.min with
          | some minTime => decide (timeKey time < timeKey minTime)
          | none => false
        else false
      let maxViolated :=
        if strTruthy st.max then
          match parseTime st.max with
          | some maxTime => decide (timeKey maxTime < timeKey time)
          | none => false
        else false
      !minViolated && !maxViolated

/-- Whether a parsed candidate satisfies the lower bound as
`_isWithinBounds` interprets it: no constraint when the bound is falsy or
unparseable, otherwise an inclusive comparison. -/
def lowerOk (bound : Option JSStr) (tt : JSTime) : Prop :=
  match parseTime bound with
  | none => True
  | some bt => timeKey bt ≤ timeKey tt

/-- Whether a parsed candidate satisfies the upper bound as
`_isWithinBounds` interprets it. -/
def upperOk (bound : Option JSStr) (tt : JSTime) : Prop :=
  match parseTime bound with
  | none => True
  | some bt => timeKey tt ≤ timeKey bt

/-- A state with a tight lower bound `min = "23:00:00"` and a minute
drag in progress, used to exercise bounds rejection on concrete inputs. -/
def tightMinState : ClockState :=
  { initState with
    min := some ['2', '3', ':', '0', '0', ':', '0', '0']
    draggingHand := some Hand.minute }

/-- A disabled state with a minute drag still marked in progress (the
drag began before `disabled` was set). -/
def dragWhileDisabledState : ClockState :=
  { initState with disabled := true, draggingHand := some Hand.minute }

/-- A plainly disabled state. -/
def disabledState : ClockState := { initState with disabled := true }

/-- A state with only a lower bound `min = "06:00:00"`. -/
def min6State : ClockState :=
  { initState with min := some ['0', '6', ':', '0', '0', ':', '0', '0'] }

/-- The displayed triple is a valid time of day. -/
def stateInRange (st : ClockState) : Prop :=
  0 ≤ st.hours ∧ st.hours ≤ 23 ∧ 0 ≤ st.minutes ∧ st.minutes ≤ 59 ∧
  0 ≤ st.seconds ∧ st.seconds ≤ 59

instance (st : ClockState) : Decidable (stateInRange st) := by
  unfold stateInRange
  infer_instance

/-! ## Arithmetic helper lemmas (JS truncating `%` and `Math.floor`) -/

theorem negTmod (a b : Int) : (-a).tmod b = -(a.tmod b) := by
  have h1 := Int.tmod_add_tdiv a b
  have h2 := Int.tmod_add_tdiv (-a) b
  rw [Int.neg_tdiv, Int.mul_neg] at h2
  omega

theorem tmodBounds (a n : Int) (hn : 0 < n) : -n < a.tmod n ∧ a.tmod n < n := by
  rcases le_or_lt 0 a with h | h
  · have h1 : a.tmod n = a % n := Int.tmod_eq_emod h hn.le
    have h2 := Int.emod_nonneg a (by omega : n ≠ 0)
    have h3 := Int.emod_lt_of_pos a hn
    omega
  · have h1 : (-a).tmod n = (-a) % n := Int.tmod_eq_emod (by omega) hn.le
    have h4 : (-a).tmod n = -(a.tmod n) := negTmod a n
    have h2 := Int.emod_nonneg (-a) (by omega : n ≠ 0)
    have h3 := Int.emod_lt_of_pos (-a) hn
    omega

theorem tmodCongr (a n : Int) : (a.tmod n) % n = a % n := by
  have h1 := Int.tmod_add_tdiv a n
  have h2 : a.tmod n = a + n * (-(a.tdiv n)) := by rw [Int.mul_neg]; omega
  rw [h2, Int.add_mul_emod_self_left]

/-- The JS idiom `((t % d) + d) % d` computes the mathematical
(Euclidean) remainder. -/
theorem normalizeDayMs_eq (t : Int) : normalizeDayMs t = t % 86400000 := by
  unfold normalizeDayMs
  have hb := tmodBounds t 86400000 (by norm_num)
  rw [Int.tmod_eq_emod (by omega) (by norm_num)]
  have := tmodCongr t 86400000
  omega

/-- Bounds on `jsRound (x / d)` followed by JS `% k`: for an angle in
`[0, d * k)` the result lies in `[0, k)`. -/
theorem jsRound_div_tmod_bounds (x : ℚ) (d k : Int) (hd : 0 < d) (hk : 0 < k)
    (h0 : 0 ≤ x) (h1 : x < (d * k : ℚ)) :
    0 ≤ (jsRound (x / (d : ℚ))).tmod k ∧ (jsRound (x / (d : ℚ))).tmod k < k := by
  have hdq : (0:ℚ) < (d : ℚ) := by exact_mod_cast hd
  have hr0 : 0 ≤ jsRound (x / (d : ℚ)) := by
    have : (0:ℚ) ≤ x / (d : ℚ) + 1 / 2 := by positivity
    exact Int.le_floor.mpr (by exact_mod_cast this)
  have hrk : jsRound (x / (d : ℚ)) ≤ k := by
    have hxd : x / (d : ℚ) < (k : ℚ) := by
      rw [div_lt_iff hdq]
      calc x < (d * k : ℚ) := h1
        _ = (k : ℚ) * (d : ℚ) := by push_cast; ring
    have : x / (d : ℚ) + 1 / 2 < (k : ℚ) + 1 := by linarith
    have hf : jsRound (x / (d : ℚ)) < k + 1 :=
      Int.floor_lt.mpr (by push_cast; linarith)
    omega
  rw [Int.tmod_eq_emod hr0 hk.le]
  rcases eq_or_lt_of_le hrk with h | h
  · rw [h]
    simp [Int.emod_self]
    omega
  · rw [Int.emod_eq_of_lt hr0 h]
    omega

/-! ## Decimal string lemmas -/

theorem decDigit_facts :
    ∀ c ∈ decDigits, Char.isDigit c = true ∧ isJsSpace c = false ∧
      c ≠ ':' ∧ c ≠ '-' ∧ c ≠ '+' ∧ digitVal c < 10 := by decide

theorem digitChar_mem : ∀ d < 10, digitChar d ∈ decDigits := by decide

theorem digitVal_digitChar : ∀ d < 10, digitVal (digitChar d) = d := by decide

theorem natToCharsFuel_stable (f1 f2 n : Nat) (acc : JSStr)
    (h1 : n ≤ f1) (h2 : n ≤ f2) :
    natToCharsFuel f1 n acc = natToCharsFuel f2 n acc := by
  induction n using Nat.strong_induction_on generalizing f1 f2 acc with
  | _ n ih =>
    by_cases h : n = 0
    · subst h
      cases f1 <;> cases f2 <;> simp [natToCharsFuel]
    · obtain ⟨g1, rfl⟩ : ∃ g, f1 = g + 1 := ⟨f1 - 1, by omega⟩
      obtain ⟨g2, rfl⟩ : ∃ g, f2 = g + 1 := ⟨f2 - 1, by omega⟩
      rw [natToCharsFuel, natToCharsFuel, if_neg h, if_neg h]
      exact ih (n / 10) (Nat.div_lt_self (Nat.pos_of_ne_zero h) (by norm_num))
        _ _ _ (by omega) (by omega)

/-- The intended recursion equation for `natToChars`. -/
theorem natToChars_eq (n : Nat) (acc : JSStr) :
    natToChars n acc =
      if n = 0 then acc
      else natToChars (n / 10) (digitChar (n % 10) :: acc) := by
  unfold natToChars
  by_cases h : n = 0
  · subst h
    simp [natToCharsFuel]
  · obtain ⟨g, hg⟩ : ∃ g, n = g + 1 := ⟨n - 1, by omega⟩
    rw [if_neg h]
    conv_lhs => rw [hg, natToCharsFuel, ← hg, if_neg h]
    exact natToCharsFuel_stable g (n / 10) (n / 10) _ (by omega) le_rfl

theorem natToChars_append (n : Nat) (acc : JSStr) :
    natToChars n acc = natToChars n [] ++ acc := by
  induction n using Nat.strong_induction_on generalizing acc with
  | _ n ih =>
    by_cases h : n = 0
    · subst h
      simp [natToChars_eq]
    · have hlt : n / 10 < n := Nat.div_lt_self (Nat.pos_of_ne_zero h) (by norm_num)
      conv_lhs => rw [natToChars_eq]
      conv_rhs => rw [natToChars_eq]
      rw [if_neg h, if_neg h,
        ih (n / 10) hlt (digitChar (n % 10) :: acc),
        ih (n / 10) hlt [digitChar (n % 10)]]
      simp

theorem natToChars_subset (n : Nat) (acc : JSStr)
    (hacc : ∀ c ∈ acc, c ∈ decDigits) :
    ∀ c ∈ natToChars n acc, c ∈ decDigits := by
  induction n using Nat.strong_induction_on generalizing acc with
  | _ n ih =>
    by_cases h : n = 0
    · subst h
      rw [natToChars_eq]
      simpa using hacc
    · have hlt : n / 10 < n := Nat.div_lt_self (Nat.pos_of_ne_zero h) (by norm_num)
      rw [natToChars_eq, if_neg h]
      refine ih (n / 10) hlt _ ?_
      intro c hc
      rcases List.mem_cons.mp hc with rfl | hc
      · exact digitChar_mem _ (Nat.mod_lt _ (by norm_num))
      · exact hacc c hc

theorem natToChars_ne_nil (n : Nat) (h : n ≠ 0) : natToChars n [] ≠ [] := by
  rw [natToChars_eq, if_neg h, natToChars_append]
  simp

theorem natOfDigitsFrom_append (a : Nat) (ds es : JSStr) :
    natOfDigitsFrom a (ds ++ es) = natOfDigitsFrom (natOfDigitsFrom a ds) es := by
  simp [natOfDigitsFrom, List.foldl_append]

theorem natToChars_val (n : Nat) (a : Nat) :
    natOfDigitsFrom a (natToChars n []) =
      a * 10 ^ (natToChars n []).length + n := by
  induction n using Nat.strong_induction_on generalizing a with
  | _ n ih =>
    by_cases h : n = 0
    · subst h
      rw [natToChars_eq]
      simp [natOfDigitsFrom]
    · have hlt : n / 10 < n := Nat.div_lt_self (Nat.pos_of_ne_zero h) (by norm_num)
      rw [natToChars_eq, if_neg h, natToChars_append, natOfDigitsFrom_append,
        ih (n / 10) hlt a]
      have hd : digitVal (digitChar (n % 10)) = n % 10 :=
        digitVal_digitChar _ (Nat.mod_lt _ (by norm_num))
      simp only [natOfDigitsFrom, List.foldl_cons, List.foldl_nil, hd,
        List.length_append, List.length_cons, List.length_nil]
      rw [pow_succ]
      have := Nat.div_add_mod n 10
      ring_nf
      omega

theorem natOfDigits_decChars (n : Nat) :
    natOfDigits (decChars n) = n := by
  unfold decChars
  by_cases h : n = 0
  · simp [h, natOfDigits, natOfDigitsFrom, digitVal]
  · rw [if_neg h]
    unfold natOfDigits
    rw [natToChars_val n 0]
    simp

theorem decChars_subset (n : Nat) : ∀ c ∈ decChars n, c ∈ decDigits := by
  unfold decChars
  by_cases h : n = 0
  · simp [h, decDigits]
  · rw [if_neg h]
    exact natToChars_subset n [] (by simp)

theorem decChars_ne_nil (n : Nat) : decChars n ≠ [] := by
  unfold decChars
  by_cases h : n = 0
  · simp [h]
  · rw [if_neg h]
    exact natToChars_ne_nil n h

theorem mem_dropWhile {p : Char → Bool} {l : JSStr} {c : Char}
    (h : c ∈ l.dropWhile p) : c ∈ l := by
  induction l with
  | nil => simp at h
  | cons x xs ih =>
    rw [List.dropWhile_cons] at h
    split at h
    · exact List.mem_cons_of_mem x (ih h)
    · exact h

theorem stripZeros_mem (ds : JSStr) : ∀ c ∈ stripZeros ds, c ∈ ds ∨ c = '0' := by
  intro c hc
  unfold stripZeros at hc
  split at hc
  · right
    simpa using hc
  · left
    rw [List.mem_reverse] at hc
    have := mem_dropWhile hc
    rwa [List.mem_reverse] at this

theorem jsExpChars_mem (n : Nat) :
    ∀ c ∈ jsExpChars n, c ∈ decDigits ∨ c = '.' ∨ c = 'e' ∨ c = '+' := by
  intro c hc
  have hsig : ∀ x ∈ stripZeros (decChars n), x ∈ decDigits := by
    intro x hx
    rcases stripZeros_mem (decChars n) x hx with hx | rfl
    · exact decChars_subset n x hx
    · decide
  unfold jsExpChars at hc
  rcases List.mem_append.mp hc with hc | hc
  · rcases he : stripZeros (decChars n) with _ | ⟨d, rest⟩
    · rw [he] at hc
      dsimp only at hc
      left
      have : c = '0' := by simpa using hc
      rw [this]
      decide
    · rw [he] at hc
      dsimp only at hc
      split at hc
      · have hcd : c = d := by simpa using hc
        exact Or.inl (hcd ▸ hsig d (he ▸ List.mem_cons_self d rest))
      · rcases List.mem_cons.mp hc with rfl | hc2
        · exact Or.inl (hsig c (he ▸ List.mem_cons_self c rest))
        · rcases List.mem_cons.mp hc2 with rfl | hc3
          · exact Or.inr (Or.inl rfl)
          · exact Or.inl (hsig c (he ▸ List.mem_cons_of_mem d hc3))
  · rcases List.mem_cons.mp hc with rfl | hc
    · exact Or.inr (Or.inr (Or.inl rfl))
    · rcases List.mem_cons.mp hc with rfl | hc
      · exact Or.inr (Or.inr (Or.inr rfl))
      · exact Or.inl (decChars_subset _ c hc)

theorem jsStringOfNat_no_colon (n : Nat) : ∀ c ∈ jsStringOfNat n, c ≠ ':' := by
  intro c hc
  unfold jsStringOfNat at hc
  split at hc
  · exact (decDigit_facts c (decChars_subset n c hc)).2.2.1
  · rcases jsExpChars_mem n c hc with hd | rfl | rfl | rfl
    · exact (decDigit_facts c hd).2.2.1
    · decide
    · decide
    · decide

theorem jsStringOfNat_lt (n : Nat) (h : n < expThreshold) :
    jsStringOfNat n = decChars n := by
  unfold jsStringOfNat
  rw [if_pos h]

theorem takeWhile_of_all (p : Char → Bool) (ds : JSStr)
    (h : ∀ c ∈ ds, p c = true) : ds.takeWhile p = ds := by
  induction ds with
  | nil => rfl
  | cons c cs ih =>
    rw [List.takeWhile_cons, h c (by simp)]
    simp [ih fun x hx => h x (by simp [hx])]

theorem natOfDigits_zeros_append (k : Nat) (ds : JSStr) :
    natOfDigits (List.replicate k '0' ++ ds) = natOfDigits ds := by
  unfold natOfDigits
  rw [natOfDigitsFrom_append]
  have : natOfDigitsFrom 0 (List.replicate k '0') = 0 := by
    induction k with
    | zero => rfl
    | succ k ih =>
      rw [List.replicate_succ]
      simpa [natOfDigitsFrom, digitVal] using ih
  rw [this]

theorem padStart2_subset (s : JSStr) (hs : ∀ c ∈ s, c ∈ decDigits) :
    ∀ c ∈ padStart2 s, c ∈ decDigits := by
  unfold padStart2
  split
  · intro c hc
    rcases List.mem_append.mp hc with h | h
    · rw [List.eq_of_mem_replicate h]
      decide
    · exact hs c h
  · exact hs

theorem padStart2_length (s : JSStr) : 2 ≤ (padStart2 s).length := by
  unfold padStart2
  split
  · simp
    omega
  · omega

theorem padStart2_natOfDigits (s : JSStr) :
    natOfDigits (padStart2 s) = natOfDigits s := by
  unfold padStart2
  split
  · exact natOfDigits_zeros_append _ s
  · rfl

/-- Running `parseInt(s, 10)` on a non-empty all-digit string returns its value. -/
theorem jsParseInt_digits (ds : JSStr) (hne : ds ≠ [])
    (hd : ∀ c ∈ ds, c ∈ decDigits) :
    jsParseInt ds = some (natOfDigits ds) := by
  obtain ⟨c, cs, rfl⟩ := List.exists_cons_of_ne_nil hne
  obtain ⟨_, hsp, _, hminus, hplus, _⟩ := decDigit_facts c (hd c (by simp))
  unfold jsParseInt splitSign
  rw [List.dropWhile_cons, hsp]
  simp only [if_neg hminus, if_neg hplus, Bool.false_eq_true, if_false]
  rw [takeWhile_of_all _ _ fun x hx => (decDigit_facts x (hd x hx)).1]
  simp [List.isEmpty_cons]

/-- Running `parseInt(s, 10)` on `'-'` followed by a non-empty all-digit string. -/
theorem jsParseInt_neg_digits (ds : JSStr) (hne : ds ≠ [])
    (hd : ∀ c ∈ ds, c ∈ decDigits) :
    jsParseInt ('-' :: ds) = some (-(natOfDigits ds : Int)) := by
  have e1 : ('-' :: ds).dropWhile isJsSpace = '-' :: ds := by
    rw [List.dropWhile_cons]
    simp [isJsSpace]
  have e2 : splitSign ('-' :: ds) = (-1, ds) := by simp [splitSign]
  unfold jsParseInt
  rw [e1, e2]
  rw [takeWhile_of_all _ _ fun x hx => (decDigit_facts x (hd x hx)).1]
  rcases ds with _ | ⟨c, cs⟩
  · exact absurd rfl hne
  · simp [List.isEmpty_cons]

/-- Round-trip: `parseInt(String(i).padStart(2, '0'), 10) || 0` recovers
any integer of magnitude below the exponential-notation threshold. -/
theorem parseIntOr0_pad_jsStringOfInt (i : Int) (hb : i.natAbs < expThreshold) :
    parseIntOr0 (padStart2 (jsStringOfInt i)) = i := by
  unfold jsStringOfInt
  by_cases hi : i < 0
  · rw [if_pos hi, jsStringOfNat_lt _ hb]
    have hne := decChars_ne_nil i.natAbs
    have hsub := decChars_subset i.natAbs
    have hlen : ¬('-' :: decChars i.natAbs).length < 2 := by
      rcases hx : decChars i.natAbs with _ | ⟨c, cs⟩
      · exact absurd hx hne
      · simp
    unfold padStart2 parseIntOr0
    rw [if_neg hlen, jsParseInt_neg_digits _ hne hsub]
    rw [natOfDigits_decChars]
    simp only [Option.getD_some]
    omega
  · have htn : i.toNat = i.natAbs := by omega
    rw [if_neg hi, htn, jsStringOfNat_lt _ hb]
    unfold parseIntOr0
    rw [jsParseInt_digits _ ?hne ?hsub]
    · rw [padStart2_natOfDigits, natOfDigits_decChars]
      simp only [Option.getD_some, Option.bind_eq_bind, Option.some_bind,
        Option.pure_def]
      omega
    case hne =>
      have := padStart2_length (decChars i.natAbs)
      intro h
      rw [h] at this
      simp at this
    case hsub => exact padStart2_subset _ (decChars_subset _)

/-! ## Splitting lemmas -/

theorem splitOnChar_ne_nil (c : Char) (s : JSStr) : splitOnChar c s ≠ [] := by
  induction s with
  | nil => simp [splitOnChar]
  | cons x xs ih =>
    rw [splitOnChar]
    split
    · simp
    · split
      · simp
      · simp

theorem splitOnChar_no_sep (c : Char) (s : JSStr) (h : ∀ x ∈ s, x ≠ c) :
    splitOnChar c s = [s] := by
  induction s with
  | nil => rfl
  | cons x xs ih =>
    rw [splitOnChar, if_neg (h x (by simp)), ih fun y hy => h y (by simp [hy])]

theorem splitOnChar_append (c : Char) (a b : JSStr) (h : ∀ x ∈ a, x ≠ c) :
    splitOnChar c (a ++ c :: b) = a :: splitOnChar c b := by
  induction a with
  | nil => simp [splitOnChar]
  | cons x xs ih =>
    rw [List.cons_append, splitOnChar, if_neg (h x (by simp)),
      ih fun y hy => h y (by simp [hy])]

theorem jsStringOfInt_no_colon (i : Int) : ∀ x ∈ jsStringOfInt i, x ≠ ':' := by
  intro x hx
  unfold jsStringOfInt at hx
  split at hx
  · rcases List.mem_cons.mp hx with rfl | hx
    · decide
    · exact jsStringOfNat_no_colon _ x hx
  · exact jsStringOfNat_no_colon _ x hx

theorem padStart2_jsStringOfInt_no_colon (i : Int) :
    ∀ x ∈ padStart2 (jsStringOfInt i), x ≠ ':' := by
  intro x hx
  unfold padStart2 at hx
  split at hx
  · rcases List.mem_append.mp hx with hx | hx
    · rw [List.eq_of_mem_replicate hx]
      decide
    · exact jsStringOfInt_no_colon i x hx
  · exact jsStringOfInt_no_colon i x hx

/-- Splitting a formatted time on `':'` yields exactly its three padded
components. -/
theorem splitOnChar_formatTime (h m s : Int) :
    splitOnChar ':' (formatTime h m s) =
      [padStart2 (jsStringOfInt h), padStart2 (jsStringOfInt m),
        padStart2 (jsStringOfInt s)] := by
  unfold formatTime
  rw [splitOnChar_append _ _ _ (padStart2_jsStringOfInt_no_colon h),
    splitOnChar_append _ _ _ (padStart2_jsStringOfInt_no_colon m),
    splitOnChar_no_sep _ _ (padStart2_jsStringOfInt_no_colon s)]

theorem formatTime_ne_nil (h m s : Int) : formatTime h m s ≠ [] := by
  unfold formatTime
  have := padStart2_length (jsStringOfInt h)
  intro hc
  rw [List.append_eq_nil] at hc
  rw [hc.1] at this
  simp at this

/-- Round-trip: `parseTime(formatTime(h, m, s))` recovers the triple,
for integer components of magnitude below the exponential-notation
threshold. -/
theorem parseTime_formatTime (h m s : Int)
    (hh : h.natAbs < expThreshold) (hm : m.natAbs < expThreshold)
    (hs : s.natAbs < expThreshold) :
    parseTime (some (formatTime h m s)) = some ⟨h, m, s⟩ := by
  unfold parseTime
  have hne := formatTime_ne_nil h m s
  have htr : strTruthy (some (formatTime h m s)) = true := by
    simp [strTruthy, hne]
  rw [htr]
  simp only [Bool.not_true, Bool.false_eq_true, if_false, Option.getD_some]
  rw [splitOnChar_formatTime]
  simp only [List.length_cons, List.length_nil, List.getD, List.get?,
    Option.getD_some]
  rw [if_neg (by norm_num), if_pos (by norm_num)]
  rw [parseIntOr0_pad_jsStringOfInt h hh, parseIntOr0_pad_jsStringOfInt m hm,
    parseIntOr0_pad_jsStringOfInt s hs]

/-! ## Bound-check lemmas -/

theorem timeToMinutes_eq_key_div (t : JSTime) :
    timeToMinutes t = ((timeKey t : Int) : ℚ) / 60 := by
  unfold timeToMinutes timeKey
  push_cast
  ring

theorem timeToMinutes_lt_iff (a b : JSTime) :
    timeToMinutes a < timeToMinutes b ↔ timeKey a < timeKey b := by
  rw [timeToMinutes_eq_key_div, timeToMinutes_eq_key_div,
    div_lt_div_iff_of_pos_right (by norm_num : (0:ℚ) < 60)]
  exact Int.cast_lt

theorem isWithinBounds_eq_key (st : ClockState) (timeString : Option JSStr) :
    isWithinBounds st timeString = isWithinBoundsKey st timeString := by
  unfold isWithinBounds isWithinBoundsKey
  simp only [timeToMinutes_lt_iff]

/-- Decomposition of a non-negative total-seconds value: the JS
`Math.floor`/`%` operations coincide with Euclidean division. -/
theorem decompose_seconds (w : Int) (h0 : 0 ≤ w) :
    Int.fdiv w 3600 = w / 3600 ∧
    Int.fdiv (Int.tmod w 3600) 60 = w % 3600 / 60 ∧
    Int.tmod w 60 = w % 60 := by
  refine ⟨Int.fdiv_eq_ediv _ (by norm_num), ?_, Int.tmod_eq_emod h0 (by norm_num)⟩
  rw [Int.tmod_eq_emod h0 (by norm_num), Int.fdiv_eq_ediv _ (by norm_num)]

/-- Decomposition of a non-negative milliseconds value. -/
theorem decompose_ms (w : Int) (h0 : 0 ≤ w) :
    Int.fdiv w 3600000 = w / 3600000 ∧
    Int.fdiv (Int.tmod w 3600000) 60000 = w % 3600000 / 60000 ∧
    Int.fdiv (Int.tmod w 60000) 1000 = w % 60000 / 1000 := by
  refine ⟨Int.fdiv_eq_ediv _ (by norm_num), ?_, ?_⟩
  · rw [Int.tmod_eq_emod h0 (by norm_num), Int.fdiv_eq_ediv _ (by norm_num)]
  · rw [Int.tmod_eq_emod h0 (by norm_num), Int.fdiv_eq_ediv _ (by norm_num)]

/-- The candidate of `_adjustTimeByStep` as a true modulo, for steps of
magnitude at most one day starting from an in-range time. -/
theorem adjustCandidate_eq_mod (h m s stepSeconds : Int)
    (h0 : 0 ≤ h) (h1 : h ≤ 23) (h2 : 0 ≤ m) (h3 : m ≤ 59)
    (h4 : 0 ≤ s) (h5 : s ≤ 59)
    (h6 : -86400 ≤ stepSeconds) (h7 : stepSeconds ≤ 86400) :
    adjustCandidate h m s stepSeconds =
      ⟨(h * 3600 + m * 60 + s + stepSeconds) % 86400 / 3600,
       (h * 3600 + m * 60 + s + stepSeconds) % 86400 % 3600 / 60,
       (h * 3600 + m * 60 + s + stepSeconds) % 86400 % 60⟩ := by
  have hb1 : -86400 ≤ h * 3600 + m * 60 + s + stepSeconds := by omega
  have hb2 : h * 3600 + m * 60 + s + stepSeconds < 2 * 86400 := by omega
  simp only [adjustCandidate]
  rw [JSTime.mk.injEq]
  generalize hg : h * 3600 + m * 60 + s + stepSeconds = t0 at hb1 hb2 ⊢
  split_ifs with c1 c2
  · have e : t0 % 86400 = t0 + 86400 := by omega
    rw [e]
    exact decompose_seconds (t0 + 86400) (by omega)
  · have e : t0 % 86400 = t0 - 86400 := by omega
    rw [e]
    exact decompose_seconds (t0 - 86400) (by omega)
  · have e : t0 % 86400 = t0 := by omega
    rw [e]
    exact decompose_seconds t0 (by omega)

/-- Rewriting `_setTimeValue` as a single record update. -/
theorem setTimeValue_eq (st : ClockState) (h m s now : Int) :
    setTimeValue st h m s now =
      { st with
        hours := h
        minutes := m
        seconds := s
        value := some (formatTime h m s)
        baseTimeMs := h * 3600000 + m * 60000 + s * 1000
        accumulatedMs := 0
        runStartTimestamp :=
          if st.running then some now else st.runStartTimestamp } := by
  unfold setTimeValue
  by_cases hr : st.running <;> simp [hr]

/-- The hour arithmetic of `_toggleAmPm` stays inside the day for in-range
input. -/
theorem toggleNewHours_range (hours : Int) (toAM : Bool)
    (h0 : 0 ≤ hours) (h1 : hours ≤ 23) :
    0 ≤ toggleNewHours hours toAM ∧ toggleNewHours hours toAM ≤ 23 := by
  simp only [toggleNewHours]
  split_ifs <;> omega

theorem dragNewHours_spec (hours : Int) (angle : ℚ)
    (h0 : 0 ≤ hours) (h1 : hours ≤ 23) (ha0 : 0 ≤ angle) (ha1 : angle < 360) :
    (12 ≤ hours →
      12 ≤ (jsRound (angle / 30)).tmod 12 + 12 ∧
      (jsRound (angle / 30)).tmod 12 + 12 ≤ 23 ∧
      dragNewHours hours angle = (jsRound (angle / 30)).tmod 12 + 12) ∧
    (hours < 12 →
      0 ≤ (jsRound (angle / 30)).tmod 12 ∧
      (jsRound (angle / 30)).tmod 12 ≤ 11 ∧
      dragNewHours hours angle = (jsRound (angle / 30)).tmod 12) ∧
    (jsRound (angle / 30)).tmod 12 + (if 12 ≤ hours then 12 else 0) ≠ 24 ∧
    ¬((jsRound (angle / 30)).tmod 12 + (if 12 ≤ hours then 12 else 0) = 0 ∧
      12 ≤ hours) := by
  obtain ⟨hb0, hb1⟩ := jsRound_div_tmod_bounds angle 30 12 (by norm_num) (by norm_num)
    ha0 (by push_cast; linarith)
  push_cast at hb0 hb1
  rcases le_or_lt 12 hours with hpm | ham
  · refine ⟨fun _ => ⟨by omega, by omega, ?_⟩, fun hc => absurd hc (by omega),
      by simp only [if_pos hpm]; omega, by simp only [if_pos hpm]; omega⟩
    simp only [dragNewHours, decide_eq_true (by exact hpm : 12 ≤ hours), if_true]
    split_ifs <;> simp_all only [Bool.and_eq_true, decide_eq_true_eq, and_true] <;> omega
  · refine ⟨fun hc => absurd hc (by omega), fun _ => ⟨by omega, by omega, ?_⟩,
      by simp only [if_neg (by omega : ¬ 12 ≤ hours)]; omega,
      by simp only [if_neg (by omega : ¬ 12 ≤ hours)]; omega⟩
    simp only [dragNewHours, decide_eq_false (by omega : ¬ 12 ≤ hours)]
    split_ifs <;> simp_all only [Bool.and_eq_true, decide_eq_true_eq, and_true,
      Bool.and_false, Bool.false_eq_true, if_false, add_zero] <;> omega

theorem parseTime_falsy (b : Option JSStr) (h : strTruthy b = false) :
    parseTime b = none := by
  simp [parseTime, h]

/-- A parseable string is truthy. -/
theorem strTruthy_of_parseTime (v : Option JSStr) (tt : JSTime)
    (h : parseTime v = some tt) : strTruthy v = true := by
  by_contra hc
  rw [parseTime_falsy v (by simpa using hc)] at h
  exact Option.noConfusion h

/-- Applying `_parseAndSetTime` to a parseable string stores exactly the parsed
triple. -/
theorem parseAndSetTime_of_parse (st : ClockState) (v : Option JSStr) (tt : JSTime)
    (h : parseTime v = some tt) :
    parseAndSetTime st v =
      { st with hours := tt.hours, minutes := tt.minutes, seconds := tt.seconds } := by
  have ht := strTruthy_of_parseTime v tt h
  simp only [parseTime, ht, Bool.not_true, Bool.false_eq_true, if_false] at h
  unfold parseAndSetTime
  rw [ht]
  simp only [Bool.not_true, Bool.false_eq_true, if_false]
  split at h
  · exact Option.noConfusion h
  · rw [if_pos (by omega)]
    rw [Option.some_inj] at h
    rw [← h]

/-- All components of a drag candidate stay in range for an in-range
state and an angle in `[0, 360)`. -/
theorem dragCandidate_range (st : ClockState) (angle : ℚ) (hin : stateInRange st)
    (ha0 : 0 ≤ angle) (ha1 : angle < 360) :
    0 ≤ (dragCandidate st angle).hours ∧ (dragCandidate st angle).hours ≤ 23 ∧
    0 ≤ (dragCandidate st angle).minutes ∧ (dragCandidate st angle).minutes ≤ 59 ∧
    0 ≤ (dragCandidate st angle).seconds ∧ (dragCandidate st angle).seconds ≤ 59 := by
  obtain ⟨q1, q2, q3, q4, q5, q6⟩ := hin
  have h60 := jsRound_div_tmod_bounds angle 6 60 (by norm_num) (by norm_num) ha0
    (by push_cast; linarith)
  push_cast at h60
  cases hd : st.draggingHand with
  | none =>
    simp only [dragCandidate, hd]
    exact ⟨q1, q2, q3, q4, q5, q6⟩
  | some hand =>
    cases hand with
    | hour =>
      simp only [dragCandidate, hd]
      obtain ⟨cpm, cam, _, _⟩ := dragNewHours_spec st.hours angle q1 q2 ha0 ha1
      rcases le_or_lt 12 st.hours with hpm | ham
      · obtain ⟨e1, e2, e3⟩ := cpm hpm
        exact ⟨by omega, by omega, q3, q4, q5, q6⟩
      · obtain ⟨e1, e2, e3⟩ := cam ham
        exact ⟨by omega, by omega, q3, q4, q5, q6⟩
    | minute =>
      simp only [dragCandidate, hd]
      exact ⟨q1, q2, by omega, by omega, q5, q6⟩
    | second =>
      simp only [dragCandidate, hd]
      exact ⟨q1, q2, q3, q4, by omega, by omega⟩

/-- Running a trace splits over list append. -/
theorem runTrace_append (s : ClockState) (xs ys : List ClockEvent) :
    runTrace s (xs ++ ys) = runTrace (runTrace s xs) ys := by
  induction xs generalizing s with
  | nil => rfl
  | cons e es ih =>
    simp only [List.cons_append, runTrace]
    exact ih (stepEvent s e)

theorem setRunningProp_on (s : ClockState) (h : s.running = false) (t : Int) :
    setRunningProp s true t =
      { s with running := true, runStartTimestamp := some t } := by
  unfold setRunningProp
  rw [if_neg (by simp [h])]
  unfold runningChangedObserver
  simp

theorem setRunningProp_off (s : ClockState) (a : Int) (h : s.running = true)
    (hts : s.runStartTimestamp = some a) (ha : a ≠ 0) (t : Int) :
    setRunningProp s false t =
      { s with
        running := false
        accumulatedMs := s.accumulatedMs + (t - a)
        runStartTimestamp := none } := by
  unfold setRunningProp
  rw [if_neg (by simp [h])]
  unfold runningChangedObserver
  simp [h, hts, tsTruthy, ha]

theorem setValueProp_of_parse (s : ClockState) (v : Option JSStr) (tt : JSTime)
    (t : Int) (hp : parseTime v = some tt) (hne : v ≠ s.value) :
    setValueProp s v t =
      { s with
        value := v
        hours := tt.hours
        minutes := tt.minutes
        seconds := tt.seconds
        baseTimeMs := tt.hours * 3600000 + tt.minutes * 60000 + tt.seconds * 1000
        accumulatedMs := 0
        runStartTimestamp := if s.running then some t else s.runStartTimestamp } := by
  unfold setValueProp
  rw [if_neg hne]
  unfold valueChangedObserver
  rw [strTruthy_of_parseTime v tt hp]
  simp only [if_true, hp, parseAndSetTime_of_parse _ v tt hp]
  by_cases hr : s.running <;> simp [hr]

theorem runToggleEvents_spec (pairs : List (Int × Int)) :
    ∀ s : ClockState, s.running = false → (∀ p ∈ pairs, 0 < p.1) →
    (runTrace s (toggleEvents pairs)).running = false ∧
    (runTrace s (toggleEvents pairs)).accumulatedMs =
      s.accumulatedMs + periodsSumMs pairs ∧
    (runTrace s (toggleEvents pairs)).baseTimeMs = s.baseTimeMs ∧
    (runTrace s (toggleEvents pairs)).value = s.value := by
  induction pairs with
  | nil =>
    intro s h _
    simp [toggleEvents, runTrace, periodsSumMs, h]
  | cons p rest ih =>
    obtain ⟨a, b⟩ := p
    intro s h hpos
    simp only [toggleEvents, runTrace, stepEvent]
    rw [setRunningProp_on s h a]
    have ha : a ≠ 0 := by
      have := hpos (a, b) (by simp)
      omega
    have e3 : setRunningProp
        { s with running := true, runStartTimestamp := some a } false b =
        { s with
          running := false
          accumulatedMs := s.accumulatedMs + (b - a)
          runStartTimestamp := none } := by
      rw [setRunningProp_off _ a rfl rfl ha b]
    rw [e3]
    obtain ⟨r1, r2, r3, r4⟩ := ih
      { s with
        running := false
        accumulatedMs := s.accumulatedMs + (b - a)
        runStartTimestamp := none } rfl (fun q hq => hpos q (by simp [hq]))
    refine ⟨r1, ?_, r3, r4⟩
    rw [r2]
    simp only [periodsSumMs]
    omega

/-! ## Claims -/

/-- C5: malformed time strings degrade to `null` or are ignored: for a
string with fewer than two colon-separated parts (which includes the
empty string) `parseTime` returns `null` and `_parseAndSetTime` leaves
the state unchanged; the same holds for a `null` input.  Both functions
are total, reflecting that the JS code raises no faults. -/
theorem C5_malformed_null_or_ignored (st : ClockState) (cs : JSStr)
    (hshort : (splitOnChar ':' cs).length < 2) :
    parseTime (some cs) = none ∧ parseAndSetTime st (some cs) = st ∧
    parseTime none = none ∧ parseAndSetTime st none = st := by
  refine ⟨?_, ?_, rfl, rfl⟩
  · unfold parseTime
    by_cases he : cs.isEmpty
    · simp [strTruthy, he]
    · simp only [strTruthy, he, Bool.not_false, Bool.not_true, Bool.false_eq_true,
        if_false, Option.getD_some]
      rw [if_pos hshort]
  · unfold parseAndSetTime
    by_cases he : cs.isEmpty
    · simp [strTruthy, he]
    · simp only [strTruthy, he, Bool.not_false, Bool.not_true, Bool.false_eq_true,
        if_false, Option.getD_some]
      rw [if_neg (by omega)]

/-- C5 witness: a concrete malformed string (no colon). -/
theorem C5_witness :
    parseTime (some ['1', '2', '3', '4']) = none ∧
    parseAndSetTime initState (some ['1', '2', '3', '4']) = initState ∧
    parseTime none = none ∧ parseAndSetTime initState none = initState :=
  C5_malformed_null_or_ignored initState ['1', '2', '3', '4'] (by decide)

/-- C8 counterexample: at `10^21` JS `String` switches to exponential
notation, so `formatTime(10^21, 0, 0)` is `"1e+21:00:00"`, which
`parseTime` reads back as hours `1` (the `parseInt` digit prefix stops
at `'e'`), not `10^21`: the round-trip fails for naturals from `10^21`
on. -/
theorem C8_counterexample :
    formatTime (1000000000000000000000 : Int) 0 0 =
      ['1', 'e', '+', '2', '1', ':', '0', '0', ':', '0', '0'] ∧
    parseTime (some (formatTime (1000000000000000000000 : Int) 0 0)) =
      some ⟨1, 0, 0⟩ ∧
    (1 : Int) ≠ 1000000000000000000000 := by
  refine ⟨by decide, by decide, by decide⟩

/-- C8 (amended): parse/format round-trip below the exponential-notation
threshold: for all natural components smaller than `10^21`,
`parseTime (formatTime h m s)` recovers the triple; the formatted string
splits into exactly three colon-separated fields, each of length at
least two; and omitting the seconds argument equals passing `0`. -/
theorem C8_parse_format_roundtrip (h m s : Nat)
    (hh : h < expThreshold) (hm : m < expThreshold) (hs : s < expThreshold) :
    parseTime (some (formatTime h m s)) = some ⟨(h : Int), (m : Int), (s : Int)⟩ ∧
    (splitOnChar ':' (formatTime h m s)).length = 3 ∧
    (∀ part ∈ splitOnChar ':' (formatTime h m s), 2 ≤ part.length) ∧
    formatTime (h : Int) (m : Int) = formatTime (h : Int) (m : Int) 0 := by
  refine ⟨parseTime_formatTime _ _ _ (by simpa using hh) (by simpa using hm)
    (by simpa using hs), ?_, ?_, rfl⟩
  · rw [splitOnChar_formatTime]
    rfl
  · rw [splitOnChar_formatTime]
    intro part hp
    simp only [List.mem_cons, List.not_mem_nil, or_false] at hp
    rcases hp with rfl | rfl | rfl
    · exact padStart2_length _
    · exact padStart2_length _
    · exact padStart2_length _

/-- C8 witness: the round-trip at a concrete small triple. -/
theorem C8_witness :
    parseTime (some (formatTime 4 5 6)) = some ⟨(4 : Int), 5, 6⟩ ∧
    (splitOnChar ':' (formatTime 4 5 6)).length = 3 ∧
    (∀ part ∈ splitOnChar ':' (formatTime 4 5 6), 2 ≤ part.length) ∧
    formatTime (4 : Int) (5 : Int) = formatTime (4 : Int) (5 : Int) 0 :=
  C8_parse_format_roundtrip 4 5 6 (by decide) (by decide) (by decide)

/-- C3 counterexample: from `00:00:00` a step of `-172800` seconds (two
days) produces the candidate `⟨-24, 0, 0⟩`, whose total seconds are
`-86400`, not `(0 - 172800) mod 86400 = 0`: a single conditional
day-wrap is not a full modulo. -/
theorem C3_counterexample :
    adjustCandidate 0 0 0 (-172800) = ⟨-24, 0, 0⟩ ∧
    ¬((-24 : Int) * 3600 + 0 * 60 + 0 =
      ((0 : Int) * 3600 + 0 * 60 + 0 + -172800) % 86400) := by
  constructor
  · decide
  · decide

/-- C3 (amended): for an in-range starting time and a step of magnitude
at most one day, the candidate of `_adjustTimeByStep` is the modulo-86400
wraparound of the shifted total seconds, decomposed into hours, minutes
and seconds. -/
theorem C3_step_wraparound (h m s stepSeconds : Int)
    (h0 : 0 ≤ h) (h1 : h ≤ 23) (h2 : 0 ≤ m) (h3 : m ≤ 59)
    (h4 : 0 ≤ s) (h5 : s ≤ 59)
    (h6 : -86400 ≤ stepSeconds) (h7 : stepSeconds ≤ 86400) :
    adjustCandidate h m s stepSeconds =
      ⟨(h * 3600 + m * 60 + s + stepSeconds) % 86400 / 3600,
       (h * 3600 + m * 60 + s + stepSeconds) % 86400 % 3600 / 60,
       (h * 3600 + m * 60 + s + stepSeconds) % 86400 % 60⟩ :=
  adjustCandidate_eq_mod h m s stepSeconds h0 h1 h2 h3 h4 h5 h6 h7

/-- C3 witness: a forward step across midnight. -/
theorem C3_witness :
    adjustCandidate 23 59 59 1 =
      ⟨(23 * 3600 + 59 * 60 + 59 + 1) % 86400 / 3600,
       (23 * 3600 + 59 * 60 + 59 + 1) % 86400 % 3600 / 60,
       (23 * 3600 + 59 * 60 + 59 + 1) % 86400 % 60⟩ :=
  C3_step_wraparound 23 59 59 1 (by decide) (by decide) (by decide) (by decide)
    (by decide) (by decide) (by decide) (by decide)


/-- C9 counterexample: with `min = "10:00:00"` and `max = "05:00:00"`,
the time exactly equal to `min` fails the check (the max comparison
rejects it), so "returns true for a time exactly equal to min" does not
hold unconditionally. -/
theorem C9_counterexample :
    ({ initState with
        min := some ['1', '0', ':', '0', '0', ':', '0', '0']
        max := some ['0', '5', ':', '0', '0', ':', '0', '0'] } : ClockState).min =
      some ['1', '0', ':', '0', '0', ':', '0', '0'] ∧
    isWithinBounds
      { initState with
        min := some ['1', '0', ':', '0', '0', ':', '0', '0']
        max := some ['0', '5', ':', '0', '0', ':', '0', '0'] }
      (some ['1', '0', ':', '0', '0', ':', '0', '0']) = false := by
  refine ⟨rfl, ?_⟩
  rw [isWithinBounds_eq_key]
  decide

/-- C9 (amended): the bounds check is vacuously true when both bounds
are absent (falsy) or when the candidate does not parse; for a parseable
candidate it holds exactly when the candidate inclusively satisfies each
bound, where an absent or unparseable bound imposes no constraint — in
particular a time equal to `min` passes the min comparison and a time
equal to `max` passes the max comparison, and both comparisons are
non-strict. -/
theorem C9_bounds_inclusive_vacuous (st : ClockState) (t : Option JSStr) :
    (strTruthy st.min = false → strTruthy st.max = false →
      isWithinBounds st t = true) ∧
    (parseTime t = none → isWithinBounds st t = true) ∧
    ∀ tt, parseTime t = some tt →
      (isWithinBounds st t = true ↔ lowerOk st.min tt ∧ upperOk st.max tt) := by
  rw [isWithinBounds_eq_key]
  unfold isWithinBoundsKey
  refine ⟨fun h1 h2 => by simp [h1, h2], fun h => ?_, fun tt htt => ?_⟩
  · split
    · rfl
    · rw [h]
  · unfold lowerOk upperOk
    split
    next hb =>
      rw [Bool.and_eq_true, Bool.not_eq_true', Bool.not_eq_true'] at hb
      rw [parseTime_falsy st.min hb.1, parseTime_falsy st.max hb.2]
      simp
    next hb =>
      rw [htt]
      by_cases hm : strTruthy st.min
      · by_cases hx : strTruthy st.max
        · simp only [hm, hx, if_true]
          cases hpm : parseTime st.min with
          | none =>
            cases hpx : parseTime st.max with
            | none => simp
            | some xt => simp [not_lt]
          | some mt =>
            cases hpx : parseTime st.max with
            | none => simp [not_lt]
            | some xt => simp [not_lt]
        · simp only [hm, hx, if_true, Bool.false_eq_true, if_false]
          rw [parseTime_falsy st.max (by simpa using hx)]
          cases hpm : parseTime st.min with
          | none => simp
          | some mt => simp [not_lt]
      · by_cases hx : strTruthy st.max
        · simp only [hm, hx, if_true, Bool.false_eq_true, if_false]
          rw [parseTime_falsy st.min (by simpa using hm)]
          cases hpx : parseTime st.max with
          | none => simp
          | some xt => simp [not_lt]
        · simp [hm, hx] at hb

/-- C9 witness: the characterization applied to a concrete state and a
candidate that parses. -/
theorem C9_witness :
    isWithinBounds
      { initState with min := some ['0', '6', ':', '0', '0', ':', '0', '0'] }
      (some ['0', '6', ':', '0', '0', ':', '0', '0']) = true ↔
    lowerOk ({ initState with
        min := some ['0', '6', ':', '0', '0', ':', '0', '0'] } : ClockState).min
        ⟨6, 0, 0⟩ ∧
    upperOk ({ initState with
        min := some ['0', '6', ':', '0', '0', ':', '0', '0'] } : ClockState).max
        ⟨6, 0, 0⟩ :=
  (C9_bounds_inclusive_vacuous
    { initState with min := some ['0', '6', ':', '0', '0', ':', '0', '0'] }
    (some ['0', '6', ':', '0', '0', ':', '0', '0'])).2.2 ⟨6, 0, 0⟩ (by decide)

/-- C2: out-of-bounds adjustments are silently rejected: for each user
adjustment (keyboard step, hand drag, face click, AM/PM toggle), when the
candidate time fails `_isWithinBounds` the operation returns the state
unchanged — in particular the displayed triple and `value` are exactly
as before.  All operations are total functions, reflecting that the JS
code raises no error on this path. -/
theorem C2_out_of_bounds_rejected (st : ClockState) (stepSeconds : Int)
    (angle : ℚ) (toAM : Bool) (now : Int) :
    (isWithinBounds st (some (formatTime
        (adjustCandidate st.hours st.minutes st.seconds stepSeconds).hours
        (adjustCandidate st.hours st.minutes st.seconds stepSeconds).minutes
        (adjustCandidate st.hours st.minutes st.seconds stepSeconds).seconds)) =
          false →
      adjustTimeByStep st stepSeconds now = st) ∧
    (isWithinBounds st (some (formatTime (dragCandidate st angle).hours
        (dragCandidate st angle).minutes (dragCandidate st angle).seconds)) =
          false →
      handleDrag st angle = st) ∧
    (isWithinBounds st (some (formatTime (faceClickCandidate st angle).hours
        (faceClickCandidate st angle).minutes
        (faceClickCandidate st angle).seconds)) = false →
      handleFaceClick st angle now = st) ∧
    (isWithinBounds st (some (formatTime (toggleNewHours st.hours toAM)
        st.minutes st.seconds)) = false →
      toggleAmPm st toAM now = st) := by
  refine ⟨fun h => ?_, fun h => ?_, fun h => ?_, fun h => ?_⟩
  · simp only [adjustTimeByStep, h, Bool.false_eq_true, if_false]
  · simp only [handleDrag, h, Bool.false_eq_true, if_false]
  · simp only [handleFaceClick, h, Bool.false_eq_true, if_false]
  · simp only [toggleAmPm, h, Bool.false_eq_true, if_false]
    split_ifs <;> rfl

/-- C2 witness: in `tightMinState` (minimum `23:00:00`, displayed time
`00:00:00`) every adjustment candidate is below the minimum and each
operation leaves the state unchanged. -/
theorem C2_witness :
    adjustTimeByStep tightMinState 60 0 = tightMinState ∧
    handleDrag tightMinState 90 = tightMinState ∧
    handleFaceClick tightMinState 90 0 = tightMinState ∧
    toggleAmPm tightMinState false 0 = tightMinState := by
  have hdrag : dragCandidate tightMinState 90 = ⟨0, 15, 0⟩ := by
    simp only [dragCandidate, tightMinState, initState]
    norm_num [jsRound]
    decide
  have hface : faceClickCandidate tightMinState 90 = ⟨0, 15, 0⟩ := by
    simp only [faceClickCandidate, tightMinState, initState]
    norm_num [jsRound]
    decide
  obtain ⟨c1, c2, c3, c4⟩ := C2_out_of_bounds_rejected tightMinState 60 90 false 0
  exact ⟨c1 (by rw [isWithinBounds_eq_key]; decide),
    c2 (by rw [hdrag, isWithinBounds_eq_key]; decide),
    c3 (by rw [hface, isWithinBounds_eq_key]; decide),
    c4 (by rw [isWithinBounds_eq_key]; decide)⟩

/-- C10: dragging the hour hand preserves the AM/PM half of the day: for
every drag angle in `[0, 360)` and in-range current hours, the hour
computed by the `'hour'` branch of `_handleDrag` lies in `12..23` when
currently PM and in `0..11` otherwise, and the two special-case
corrections (`newHours === 24`, and `newHours === 0` while PM) never
trigger: their guards are false and the result equals the uncorrected
value. -/
theorem C10_drag_hour_preserves_ampm (hours : Int) (angle : ℚ)
    (h0 : 0 ≤ hours) (h1 : hours ≤ 23) (ha0 : 0 ≤ angle) (ha1 : angle < 360) :
    (12 ≤ hours →
      12 ≤ (jsRound (angle / 30)).tmod 12 + 12 ∧
      (jsRound (angle / 30)).tmod 12 + 12 ≤ 23 ∧
      dragNewHours hours angle = (jsRound (angle / 30)).tmod 12 + 12) ∧
    (hours < 12 →
      0 ≤ (jsRound (angle / 30)).tmod 12 ∧
      (jsRound (angle / 30)).tmod 12 ≤ 11 ∧
      dragNewHours hours angle = (jsRound (angle / 30)).tmod 12) ∧
    (jsRound (angle / 30)).tmod 12 + (if 12 ≤ hours then 12 else 0) ≠ 24 ∧
    ¬((jsRound (angle / 30)).tmod 12 + (if 12 ≤ hours then 12 else 0) = 0 ∧
      12 ≤ hours) :=
  dragNewHours_spec hours angle h0 h1 ha0 ha1

/-- C10 witness: PM hours and an angle that rounds up to the `% 12`
wrap. -/
theorem C10_witness :
    (12 ≤ (14 : Int) →
      12 ≤ (jsRound ((350 : ℚ) / 30)).tmod 12 + 12 ∧
      (jsRound ((350 : ℚ) / 30)).tmod 12 + 12 ≤ 23 ∧
      dragNewHours 14 350 = (jsRound ((350 : ℚ) / 30)).tmod 12 + 12) ∧
    ((14 : Int) < 12 →
      0 ≤ (jsRound ((350 : ℚ) / 30)).tmod 12 ∧
      (jsRound ((350 : ℚ) / 30)).tmod 12 ≤ 11 ∧
      dragNewHours 14 350 = (jsRound ((350 : ℚ) / 30)).tmod 12) ∧
    (jsRound ((350 : ℚ) / 30)).tmod 12 + (if 12 ≤ (14 : Int) then 12 else 0) ≠ 24 ∧
    ¬((jsRound ((350 : ℚ) / 30)).tmod 12 + (if 12 ≤ (14 : Int) then 12 else 0) = 0 ∧
      12 ≤ (14 : Int)) :=
  C10_drag_hour_preserves_ampm 14 350 (by decide) (by decide) (by decide) (by decide)

/-- C4 counterexample: assigning the parseable string `"99:99:99"` to
`value` stores the fields unclamped, so the displayed triple leaves the
valid time-of-day range. -/
theorem C4_counterexample :
    stateInRange initState ∧
    parseTime (some ['9', '9', ':', '9', '9', ':', '9', '9']) = some ⟨99, 99, 99⟩ ∧
    (setValueProp initState (some ['9', '9', ':', '9', '9', ':', '9', '9']) 1000).hours
      = 99 ∧
    ¬ stateInRange
      (setValueProp initState (some ['9', '9', ':', '9', '9', ':', '9', '9']) 1000) := by
  refine ⟨by decide, by decide, by decide, by decide⟩

/-- C4 (amended): starting from an in-range state, the user adjustments
(keyboard step of magnitude at most one day, drag, face click, AM/PM
toggle) and the running-time update keep the displayed triple in range;
assigning `value` stores the parsed fields unclamped, so it keeps the
range only when the parsed fields are themselves in range. -/
theorem C4_in_range_preserved (st : ClockState) (hin : stateInRange st) :
    (∀ stepSeconds now, -86400 ≤ stepSeconds → stepSeconds ≤ 86400 →
      stateInRange (adjustTimeByStep st stepSeconds now)) ∧
    (∀ angle : ℚ, 0 ≤ angle → angle < 360 → stateInRange (handleDrag st angle)) ∧
    (∀ (angle : ℚ) (now : Int), 0 ≤ angle → angle < 360 →
      stateInRange (handleFaceClick st angle now)) ∧
    (∀ (toAM : Bool) (now : Int), stateInRange (toggleAmPm st toAM now)) ∧
    (∀ now, stateInRange (updateDisplayFromRunningTime st now)) ∧
    (∀ (v : Option JSStr) (tt : JSTime) (now : Int), parseTime v = some tt →
      0 ≤ tt.hours → tt.hours ≤ 23 → 0 ≤ tt.minutes → tt.minutes ≤ 59 →
      0 ≤ tt.seconds → tt.seconds ≤ 59 → v ≠ st.value →
      stateInRange (setValueProp st v now)) := by
  obtain ⟨q1, q2, q3, q4, q5, q6⟩ := hin
  refine ⟨?_, ?_, ?_, ?_, ?_, ?_⟩
  · intro stepSeconds now hs1 hs2
    simp only [adjustTimeByStep]
    split
    · rw [adjustCandidate_eq_mod st.hours st.minutes st.seconds stepSeconds
        q1 q2 q3 q4 q5 q6 hs1 hs2, setTimeValue_eq]
      have e0 : 0 ≤ (st.hours * 3600 + st.minutes * 60 + st.seconds + stepSeconds) % 86400 :=
        Int.emod_nonneg _ (by norm_num)
      have e1 : (st.hours * 3600 + st.minutes * 60 + st.seconds + stepSeconds) % 86400 < 86400 :=
        Int.emod_lt_of_pos _ (by norm_num)
      simp only [stateInRange]
      constructor
      · omega
      · refine ⟨by omega, by omega, by omega, by omega, by omega⟩
    · exact ⟨q1, q2, q3, q4, q5, q6⟩
  · intro angle ha0 ha1
    have hc := dragCandidate_range st angle ⟨q1, q2, q3, q4, q5, q6⟩ ha0 ha1
    simp only [handleDrag]
    split
    · simp only [stateInRange]
      exact hc
    · exact ⟨q1, q2, q3, q4, q5, q6⟩
  · intro angle now ha0 ha1
    have h60 := jsRound_div_tmod_bounds angle 6 60 (by norm_num) (by norm_num) ha0
      (by push_cast; linarith)
    push_cast at h60
    simp only [handleFaceClick, faceClickCandidate]
    split
    · rw [setTimeValue_eq]
      simp only [stateInRange]
      exact ⟨q1, q2, by omega, by omega, by omega, by omega⟩
    · exact ⟨q1, q2, q3, q4, q5, q6⟩
  · intro toAM now
    have ht := toggleNewHours_range st.hours toAM q1 q2
    simp only [toggleAmPm]
    split_ifs
    · exact ⟨q1, q2, q3, q4, q5, q6⟩
    · exact ⟨q1, q2, q3, q4, q5, q6⟩
    · rw [setTimeValue_eq]
      simp only [stateInRange]
      exact ⟨by omega, by omega, q3, q4, q5, q6⟩
    · exact ⟨q1, q2, q3, q4, q5, q6⟩
  · intro now
    simp only [updateDisplayFromRunningTime, normalizeDayMs_eq]
    have h0 : 0 ≤ (st.baseTimeMs + elapsedRunMs st now) % 86400000 :=
      Int.emod_nonneg _ (by norm_num)
    have h1 : (st.baseTimeMs + elapsedRunMs st now) % 86400000 < 86400000 :=
      Int.emod_lt_of_pos _ (by norm_num)
    obtain ⟨d1, d2, d3⟩ := decompose_ms _ h0
    rw [d1, d2, d3]
    simp only [stateInRange]
    refine ⟨by omega, by omega, by omega, by omega, by omega, by omega⟩
  · intro v tt now hp hh1 hh2 hh3 hh4 hh5 hh6 hne
    unfold setValueProp
    rw [if_neg hne]
    unfold valueChangedObserver
    rw [strTruthy_of_parseTime v tt hp]
    simp only [if_true, hp, parseAndSetTime_of_parse _ v tt hp]
    by_cases hr : st.running <;>
      simp [hr, stateInRange, hh1, hh2, hh3, hh4, hh5, hh6]


/-- C4 witness: the preserved operations applied to the initial state at
concrete inputs. -/
theorem C4_witness :
    stateInRange (adjustTimeByStep initState 61 0) ∧
    stateInRange (handleDrag initState 90) ∧
    stateInRange (handleFaceClick initState 90 0) ∧
    stateInRange (toggleAmPm initState false 0) ∧
    stateInRange (updateDisplayFromRunningTime initState 5) ∧
    stateInRange
      (setValueProp initState (some ['1', '2', ':', '3', '4', ':', '5', '6']) 7) := by
  obtain ⟨p1, p2, p3, p4, p5, p6⟩ := C4_in_range_preserved initState (by decide)
  exact ⟨p1 61 0 (by decide) (by decide), p2 90 (by decide) (by decide),
    p3 90 0 (by decide) (by decide), p4 false 0, p5 5,
    p6 (some ['1', '2', ':', '3', '4', ':', '5', '6']) ⟨12, 34, 56⟩ 7 (by decide)
      (by decide) (by decide) (by decide) (by decide) (by decide) (by decide)
      (by decide)⟩

/-- C6 counterexample: with `min = "06:00:00"`, assigning the
out-of-bounds value `"05:00:00"` stores it verbatim — the stored time is
below `min` and is not replaced by `min`: `value` assignment performs no
bounds check and no clamping. -/
theorem C6_counterexample :
    isWithinBounds { initState with min := some ['0','6',':','0','0',':','0','0'] }
      (some ['0','5',':','0','0',':','0','0']) = false ∧
    (setValueProp { initState with min := some ['0','6',':','0','0',':','0','0'] }
      (some ['0','5',':','0','0',':','0','0']) 0).hours = 5 ∧
    (setValueProp { initState with min := some ['0','6',':','0','0',':','0','0'] }
      (some ['0','5',':','0','0',':','0','0']) 0).value =
      some ['0','5',':','0','0',':','0','0'] := by
  refine ⟨?_, by decide, by decide⟩
  rw [isWithinBounds_eq_key]
  decide


/-- C6 (amended): the model does not clamp to the bounds: a value
assigned through the `value` property is stored exactly as parsed,
regardless of `min`/`max`; a user adjustment whose candidate fails the
bounds check is rejected with the state unchanged, never replaced by the
nearer bound. -/
theorem C6_no_clamping (st : ClockState) (v : Option JSStr) (tt : JSTime)
    (now stepSeconds : Int)
    (hp : parseTime v = some tt) (hne : v ≠ st.value) :
    ((setValueProp st v now).hours = tt.hours ∧
     (setValueProp st v now).minutes = tt.minutes ∧
     (setValueProp st v now).seconds = tt.seconds ∧
     (setValueProp st v now).value = v) ∧
    (isWithinBounds st (some (formatTime
        (adjustCandidate st.hours st.minutes st.seconds stepSeconds).hours
        (adjustCandidate st.hours st.minutes st.seconds stepSeconds).minutes
        (adjustCandidate st.hours st.minutes st.seconds stepSeconds).seconds)) = false →
      adjustTimeByStep st stepSeconds now = st) := by
  constructor
  · unfold setValueProp
    rw [if_neg hne]
    unfold valueChangedObserver
    rw [strTruthy_of_parseTime v tt hp]
    simp only [if_true, hp, parseAndSetTime_of_parse _ v tt hp]
    by_cases hr : st.running <;> simp [hr]
  · intro h
    simp only [adjustTimeByStep, h, Bool.false_eq_true, if_false]


/-- C6 witness: assigning `"05:00:00"` under `min = "06:00:00"` stores
it unclamped, and an out-of-bounds keyboard step is rejected unchanged. -/
theorem C6_witness :
    ((setValueProp min6State (some ['0', '5', ':', '0', '0', ':', '0', '0']) 0).hours
        = (5 : Int) ∧
     (setValueProp min6State (some ['0', '5', ':', '0', '0', ':', '0', '0']) 0).minutes
        = (0 : Int) ∧
     (setValueProp min6State (some ['0', '5', ':', '0', '0', ':', '0', '0']) 0).seconds
        = (0 : Int) ∧
     (setValueProp min6State (some ['0', '5', ':', '0', '0', ':', '0', '0']) 0).value
        = some ['0', '5', ':', '0', '0', ':', '0', '0']) ∧
    adjustTimeByStep min6State 60 0 = min6State := by
  obtain ⟨c1, c2⟩ := C6_no_clamping min6State
    (some ['0', '5', ':', '0', '0', ':', '0', '0']) ⟨5, 0, 0⟩ 0 60
    (by decide) (by decide)
  exact ⟨c1, c2 (by rw [isWithinBounds_eq_key]; decide)⟩

/-- C7 counterexample: with `disabled = true` but a drag already in
progress, a mouse-move event still changes the displayed minutes, so
"every pointer event handler returns without modifying any state" fails
for the drag-move handler. -/
theorem C7_counterexample :
    isInteractive dragWhileDisabledState = false ∧
    dragWhileDisabledState.minutes = 0 ∧
    (onMouseMove dragWhileDisabledState 90).minutes = 15 := by
  refine ⟨by decide, by decide, ?_⟩
  have e : dragCandidate dragWhileDisabledState 90 = ⟨0, 15, 0⟩ := by
    simp only [dragCandidate, dragWhileDisabledState, initState]
    norm_num [jsRound]
    decide
  have e2 : onMouseMove dragWhileDisabledState 90 = handleDrag dragWhileDisabledState 90 := rfl
  rw [e2]
  simp only [handleDrag, e]
  decide


/-- C7 (amended): the interactivity flags guard the initiating handlers:
whenever the clock is not interactive, face mousedown/touchstart, hand
mousedown/touchstart, keyboard, and AM/PM toggle handlers change
nothing; the drag-move and drag-end handlers are guarded by the
dragging-hand marker instead, and change nothing when no drag is in
progress — but a drag begun before the flags changed can still modify
state. -/
theorem C7_flags_guard_initiating_handlers (st : ClockState) (h : isInteractive st = false) :
    (∀ (angle : ℚ) (now : Int), onFaceMouseDown st angle now = st) ∧
    (∀ hand, onHandMouseDown st hand = st) ∧
    (∀ (key : JSKey) (now : Int), onKeyDown st key now = st) ∧
    (∀ (toAM : Bool) (now : Int), toggleAmPm st toAM now = st) ∧
    (st.draggingHand = none →
      (∀ angle : ℚ, onMouseMove st angle = st) ∧ (∀ now : Int, onMouseUp st now = st)) := by
  refine ⟨fun angle now => ?_, fun hand => ?_, fun key now => ?_, fun toAM now => ?_,
    fun hd => ⟨fun angle => ?_, fun now => ?_⟩⟩
  · simp [onFaceMouseDown, h]
  · simp [onHandMouseDown, h]
  · simp [onKeyDown, h]
  · simp [toggleAmPm, h]
  · simp [onMouseMove, hd]
  · simp [onMouseUp, hd]


/-- C7 witness: every guarded handler is a no-op on a disabled state
with no drag in progress. -/
theorem C7_witness :
    onFaceMouseDown disabledState 90 0 = disabledState ∧
    onHandMouseDown disabledState Hand.hour = disabledState ∧
    onKeyDown disabledState JSKey.arrowUp 0 = disabledState ∧
    toggleAmPm disabledState true 0 = disabledState ∧
    onMouseMove disabledState 90 = disabledState ∧
    onMouseUp disabledState 0 = disabledState := by
  obtain ⟨p1, p2, p3, p4, p5⟩ :=
    C7_flags_guard_initiating_handlers disabledState (by decide)
  obtain ⟨p5a, p5b⟩ := p5 (by decide)
  exact ⟨p1 90 0, p2 Hand.hour, p3 JSKey.arrowUp 0, p4 true 0, p5a 90, p5b 0⟩

/-- C1: the running-clock accumulator: setting `value` (to a parseable
string differing from the stored one) resets `_accumulatedMs` to `0`,
sets `_baseTimeMs` from the parsed triple, and — when running — restarts
`_runStartTimestamp`; and after any number of completed start/stop
cycles followed by a final start, `getValue()` returns `formatTime` of
`(baseTimeMs + accumulatedMs + (now - runStartTimestamp)) mod 86400000`
decomposed into hours, minutes and seconds, where `accumulatedMs` is the
sum of the durations of the completed periods since the value was set.
Timestamps are required positive (`Date.now()` is), since a timestamp of
`0` is falsy in JS. -/
theorem C1_running_clock_accumulator (s0 : ClockState) (v : JSStr) (hh mm ss : Int)
    (hv : parseTime (some v) = some ⟨hh, mm, ss⟩)
    (hneq : s0.value ≠ some v) (hnr : s0.running = false)
    (t0 : Int) (pairs : List (Int × Int)) (hpos : ∀ p ∈ pairs, 0 < p.1)
    (tStart : Int) (htS : tStart ≠ 0) (now : Int)
    (s1 : ClockState) (h1r : s1.running = true) (h1v : s1.value ≠ some v) :
    ((stepEvent s1 (ClockEvent.setVal (some v) t0)).accumulatedMs = 0 ∧
     (stepEvent s1 (ClockEvent.setVal (some v) t0)).runStartTimestamp = some t0 ∧
     (stepEvent s1 (ClockEvent.setVal (some v) t0)).baseTimeMs =
       hh * 3600000 + mm * 60000 + ss * 1000) ∧
    getValue
      (runTrace s0 (ClockEvent.setVal (some v) t0 ::
        (toggleEvents pairs ++ [ClockEvent.setRun true tStart]))) now =
      some (formatTime
        ((hh * 3600000 + mm * 60000 + ss * 1000 + periodsSumMs pairs +
          (now - tStart)) % 86400000 / 3600000)
        ((hh * 3600000 + mm * 60000 + ss * 1000 + periodsSumMs pairs +
          (now - tStart)) % 86400000 % 3600000 / 60000)
        ((hh * 3600000 + mm * 60000 + ss * 1000 + periodsSumMs pairs +
          (now - tStart)) % 86400000 % 60000 / 1000)) := by
  constructor
  · rw [show stepEvent s1 (ClockEvent.setVal (some v) t0) = setValueProp s1 (some v) t0
      from rfl]
    rw [setValueProp_of_parse s1 (some v) ⟨hh, mm, ss⟩ t0 hv (Ne.symm h1v), h1r]
    exact ⟨rfl, rfl, rfl⟩
  · rw [show runTrace s0 (ClockEvent.setVal (some v) t0 ::
        (toggleEvents pairs ++ [ClockEvent.setRun true tStart])) =
      runTrace (setValueProp s0 (some v) t0)
        (toggleEvents pairs ++ [ClockEvent.setRun true tStart]) from rfl]
    rw [setValueProp_of_parse s0 (some v) ⟨hh, mm, ss⟩ t0 hv (Ne.symm hneq), hnr]
    simp only [Bool.false_eq_true, if_false]
    rw [runTrace_append]
    set sV : ClockState :=
      { s0 with
        value := some v
        running := false
        hours := hh
        minutes := mm
        seconds := ss
        baseTimeMs := hh * 3600000 + mm * 60000 + ss * 1000
        accumulatedMs := 0
        runStartTimestamp := s0.runStartTimestamp } with hsV
    obtain ⟨r1, r2, r3, r4⟩ := runToggleEvents_spec pairs sV rfl hpos
    set M : ClockState := runTrace sV (toggleEvents pairs) with hM
    rw [show runTrace M [ClockEvent.setRun true tStart] =
      setRunningProp M true tStart from rfl]
    rw [setRunningProp_on M r1 tStart]
    simp only [getValue, elapsedRunMs, tsTruthy, bne_iff_ne, ne_eq, htS,
      not_false_eq_true, if_true, Bool.not_true, Bool.false_eq_true, if_false,
      Option.getD_some]
    rw [r2, r3]
    have harg : sV.baseTimeMs + (sV.accumulatedMs + periodsSumMs pairs + (now - tStart)) =
        hh * 3600000 + mm * 60000 + ss * 1000 + periodsSumMs pairs + (now - tStart) := by
      rw [hsV]
      ring
    rw [normalizeDayMs_eq, harg]
    obtain ⟨d1, d2, d3⟩ := decompose_ms
      ((hh * 3600000 + mm * 60000 + ss * 1000 + periodsSumMs pairs +
        (now - tStart)) % 86400000) (Int.emod_nonneg _ (by norm_num))
    rw [d1, d2, d3]


/-- C1 witness: base value `01:00:00`, one completed period of 2000 ms,
then running again; queried 2000 ms into the final period the clock
reads `01:00:04`. -/
theorem C1_witness :
    ((stepEvent { initState with running := true }
        (ClockEvent.setVal (some ['0', '1', ':', '0', '0', ':', '0', '0']) 500)).accumulatedMs
        = 0 ∧
     (stepEvent { initState with running := true }
        (ClockEvent.setVal (some ['0', '1', ':', '0', '0', ':', '0', '0']) 500)).runStartTimestamp
        = some 500 ∧
     (stepEvent { initState with running := true }
        (ClockEvent.setVal (some ['0', '1', ':', '0', '0', ':', '0', '0']) 500)).baseTimeMs
        = 1 * 3600000 + 0 * 60000 + 0 * 1000) ∧
    getValue
      (runTrace initState
        (ClockEvent.setVal (some ['0', '1', ':', '0', '0', ':', '0', '0']) 500 ::
          (toggleEvents [(1000, 3000)] ++ [ClockEvent.setRun true 5000]))) 7000 =
      some (formatTime
        ((1 * 3600000 + 0 * 60000 + 0 * 1000 + periodsSumMs [(1000, 3000)] +
          (7000 - 5000)) % 86400000 / 3600000)
        ((1 * 3600000 + 0 * 60000 + 0 * 1000 + periodsSumMs [(1000, 3000)] +
          (7000 - 5000)) % 86400000 % 3600000 / 60000)
        ((1 * 3600000 + 0 * 60000 + 0 * 1000 + periodsSumMs [(1000, 3000)] +
          (7000 - 5000)) % 86400000 % 60000 / 1000)) :=
  C1_running_clock_accumulator initState ['0', '1', ':', '0', '0', ':', '0', '0']
    1 0 0 (by decide) (by decide) rfl 500 [(1000, 3000)] (by decide) 5000
    (by decide) 7000 { initState with running := true } rfl (by decide)

end VaadinClock
